import Mathlib

/-!
Verification of the dshield-coordination-engine specification against a
shallow embedding of its Python source.

Conventions of the embedding:
* Python floats are modelled as rationals (ℚ); every arithmetic step of the
  source is total on the values it actually receives.
* Python dicts whose iteration order matters are modelled as association
  lists (`List (String × β)`), first binding wins on lookup; Python sets are
  modelled through `List.dedup` (cardinality of the distinct elements).
* `datetime` values are modelled as integer timestamps (seconds); calls to
  `datetime.utcnow()` are modelled by reading successive values of an
  explicit clock `Nat → Int`.
* Fallible external collaborators (the LLM client) are modelled as oracle
  functions returning `Except String R`.

The file is organised as definitions first (the embedding of the source,
plus spec-side renderings used for refinement comparisons), then theorems.
-/

namespace DShield

/-! # Definitions -/

/-! ## Association-list helpers (Python dict operations) -/

/-- First-match lookup in an association list, mirroring Python dict access
`d[k]` / `d.get(k)`. -/
def alistGet {β : Type} (l : List (String × β)) (k : String) : Option β :=
  match l with
  | [] => none
  | (k', v) :: rest => if k' = k then some v else alistGet rest k

/-- Python `d.get(k, default)`. -/
def alistGetD {β : Type} (l : List (String × β)) (k : String) (d : β) : β :=
  (alistGet l k).getD d

/-- In-place update of the binding of `k`, mirroring Python `d[k] = v` on a
dict already containing `k`. -/
def alistSet {β : Type} (l : List (String × β)) (k : String) (v : β) :
    List (String × β) :=
  match l with
  | [] => []
  | (k', v') :: rest =>
      if k' = k then (k', v) :: rest else (k', v') :: alistSet rest k v

/-- A Python dict value that is either a float or a string; the analysis
result dicts of the agents hold both kinds. -/
inductive Val where
  | num (q : ℚ)
  | str (s : String)
deriving DecidableEq

/-- A heterogeneous result dict, e.g. one entry of `correlation_results`. -/
abbrev Dict : Type := List (String × Val)

/-- Python `d.get(k, default)` on a heterogeneous dict at a key holding a
float.  Every key read this way in the source holds a float whenever it is
present, so the fallthrough for a string value is never exercised. -/
def getNumD (d : Dict) (k : String) (dflt : ℚ) : ℚ :=
  match alistGet d k with
  | some (.num q) => q
  | _ => dflt

/-! ## §4.6 Confidence Scorer: weighted-mean fallback

Embeds `ConfidenceScorerAgent._statistical_confidence_scoring`
(src/services/workflow/agents.py lines 661-695) and the identical
`LLMClient._estimate_confidence` (src/services/llm/client.py lines 386-418).
-/

/-- The weight table of `_statistical_confidence_scoring`: the `weights`
dict literal together with the `weights.get(evidence_type, 0.1)` default. -/
def weightOf (k : String) : ℚ :=
  if k = "temporal_correlation" then 25/100
  else if k = "behavioral_similarity" then 25/100
  else if k = "infrastructure_clustering" then 20/100
  else if k = "geographic_proximity" then 15/100
  else if k = "payload_similarity" then 15/100
  else 10/100

/-- The `weighted_sum` accumulator of the `for evidence_type, score in
evidence_scores.items()` loop. -/
def weightedSum (scores : List (String × ℚ)) : ℚ :=
  match scores with
  | [] => 0
  | (k, s) :: rest => s * weightOf k + weightedSum rest

/-- The `total_weight` accumulator of the same loop. -/
def totalWeight (scores : List (String × ℚ)) : ℚ :=
  match scores with
  | [] => 0
  | (k, _) :: rest => weightOf k + totalWeight rest

/-- `ConfidenceScorerAgent._statistical_confidence_scoring`: weighted mean
of the evidence scores, `0.5` for an empty map or non-positive total
weight. -/
def statisticalConfidenceScoring (scores : List (String × ℚ)) : ℚ :=
  if scores = [] then 1/2
  else
    let ws := weightedSum scores
    let tw := totalWeight scores
    if 0 < tw then ws / tw else 1/2

/-- `LLMClient._estimate_confidence` (src/services/llm/client.py), verbatim
the same algorithm as `_statistical_confidence_scoring`. -/
def estimateConfidence (scores : List (String × ℚ)) : ℚ :=
  if scores = [] then 1/2
  else
    let ws := weightedSum scores
    let tw := totalWeight scores
    if 0 < tw then ws / tw else 1/2

/-! ## §4.6 Confidence Scorer: evidence extraction

Embeds `ConfidenceScorerAgent._extract_evidence_scores`
(src/services/workflow/agents.py lines 601-638).  Only the fields the
method reads are modelled: `correlation_results` is a dict of per-dimension
result dicts, `enrichment_data` a dict of floats.
-/

/-- `ConfidenceScorerAgent._extract_evidence_scores`: assembles the
evidence-score dict, in the insertion order of the source.  The two `if`
tests mirror Python truthiness of the `correlation_results` and
`enrichment_data` dicts (non-empty). -/
def extractEvidenceScores (correlationResults : List (String × Dict))
    (enrichmentData : List (String × ℚ)) : List (String × ℚ) :=
  (if correlationResults = [] then []
   else
     let temporal := alistGetD correlationResults "temporal" []
     let behavioral := alistGetD correlationResults "behavioral" []
     let infrastructure := alistGetD correlationResults "infrastructure" []
     [("temporal_correlation", getNumD temporal "correlation_score" 0),
      ("behavioral_similarity", getNumD behavioral "similarity_score" 0),
      ("infrastructure_clustering", getNumD infrastructure "clustering_score" 0)])
  ++ (if enrichmentData = [] then []
      else
        [("geographic_proximity", alistGetD enrichmentData "geographic_proximity" 0),
         ("threat_correlation", alistGetD enrichmentData "threat_correlation" 0)])
  ++ [("payload_similarity", 1/2)]

/-! ## §4.3 Orchestrator: deep-analysis heuristic

Embeds `OrchestratorAgent._should_deep_analyze`
(src/services/workflow/agents.py lines 74-121).
-/

/-- A timestamp value as found in a raw session dict: either an already
parsed datetime, or a string whose `datetime.fromisoformat` outcome (after
the `Z` → `+00:00` replacement) is `parsed` (`none` models a
`ValueError`). -/
inductive TsVal where
  | dt (t : Int)
  | str (parsed : Option Int)
deriving DecidableEq

/-- A raw attack-session dict, restricted to the keys the orchestrator and
tool coordinator read.  `none` models an absent (or falsy) value of
`session.get(...)`. -/
structure Session where
  sourceIp : Option String
  timestamp : Option TsVal
deriving DecidableEq

/-- The timestamp-collection loop of `_should_deep_analyze`: keeps datetime
values as they are, keeps string values that parse, skips sessions whose
timestamp is absent or fails to parse. -/
def collectTimestamps : List Session → List Int
  | [] => []
  | s :: rest =>
      match s.timestamp with
      | none => collectTimestamps rest
      | some (.dt t) => t :: collectTimestamps rest
      | some (.str p) =>
          match p with
          | none => collectTimestamps rest
          | some t => t :: collectTimestamps rest

/-- Insertion step of the sort used to model Python `sorted`. -/
def insertSorted (x : Int) : List Int → List Int
  | [] => [x]
  | y :: rest => if x ≤ y then x :: y :: rest else y :: insertSorted x rest

/-- Python `sorted` on integer timestamps (insertion sort; any comparison
sort computes the same list on integers). -/
def sortTimes : List Int → List Int
  | [] => []
  | x :: rest => insertSorted x (sortTimes rest)

/-- The interval loop of `_should_deep_analyze`: consecutive differences of
the sorted timestamps, in seconds. -/
def consecIntervals : List Int → List Int
  | a :: b :: rest => (b - a) :: consecIntervals (b :: rest)
  | _ => []

/-- `OrchestratorAgent._should_deep_analyze`.  `source_ips` is the Python
set of `session.get("source_ip")` values (absent keys contribute `None`,
modelled by `none`); the final comparison mirrors the float test
`len(short_intervals) > len(intervals) * 0.5`. -/
def shouldDeepAnalyze (sessions : List Session) : Bool :=
  if sessions.length < 3 then false
  else
    let sourceIps := (sessions.map (·.sourceIp)).dedup
    if sourceIps.length = 1 then false
    else
      let timestamps := collectTimestamps sessions
      if 3 ≤ timestamps.length then
        let sortedTimes := sortTimes timestamps
        let intervals := consecIntervals sortedTimes
        let shortIntervals := intervals.filter (fun i => i < 300)
        decide ((intervals.length : ℚ) * (1/2) < (shortIntervals.length : ℚ))
      else false

/-- Rendering of the §4.3 routing algorithm exactly as the spec words it:
fewer than 3 sessions → false; a single distinct source address → false;
if at least 3 timestamps parse, sort, take consecutive intervals, and
answer whether the intervals shorter than 300 s outnumber half of the
intervals; otherwise false.  The half comparison is stated over naturals
(`2·|SHORT| > |intervals|`). -/
def specNeedsDeep (sessions : List Session) : Bool :=
  if sessions.length < 3 then false
  else if ((sessions.map (·.sourceIp)).dedup.length = 1) then false
  else
    let ts := collectTimestamps sessions
    if 3 ≤ ts.length then
      let intervals := consecIntervals (sortTimes ts)
      decide (intervals.length < 2 * (intervals.filter (fun i => i < 300)).length)
    else false

/-! ## §4.5 Tool Coordinator: synthesis of tool outputs

Embeds `ToolCoordinatorAgent._synthesize_results`
(src/services/workflow/agents.py lines 488-531).  The collected tool
outputs are modelled per tool as an optional per-address table (`none`
models the tool key being absent from `tool_results`); each row keeps the
one field the synthesis reads (`result.get("asn")`,
`result.get("country")`, `result.get("threat_score", 0.0)`), `none`
modelling an absent field.
-/

/-- The `tool_results` dict as read by `_synthesize_results`: for each of
the four tools, the `.get("results", {})` table, present iff the tool key
is in the dict.  `asn` (the `asn_analysis` output) is carried but never
read by the synthesis, as in the source. -/
structure ToolResults where
  bgp : Option (List (String × Option String))
  threat : Option (List (String × Option ℚ))
  geo : Option (List (String × Option String))
  asn : Option (List (String × Option String))
deriving DecidableEq

/-- `ToolCoordinatorAgent._synthesize_results`: starts from the all-zero
synthesis dict and conditionally overwrites each slot, following the
source statement by statement.  Python set cardinalities become
`List.dedup.length`. -/
def synthesizeResults (tr : ToolResults) : List (String × ℚ) :=
  let synthesis : List (String × ℚ) :=
    [("infrastructure_clustering", 0), ("geographic_proximity", 0),
     ("threat_correlation", 0)]
  let synthesis :=
    match tr.bgp with
    | none => synthesis
    | some bgpResults =>
        let asns := (bgpResults.map (·.2)).dedup
        if asns.length = 1 then
          alistSet synthesis "infrastructure_clustering" (8/10)
        else if asns.length < bgpResults.length then
          alistSet synthesis "infrastructure_clustering" (5/10)
        else synthesis
  let synthesis :=
    match tr.geo with
    | none => synthesis
    | some geoResults =>
        let countries := (geoResults.map (·.2)).dedup
        if countries.length = 1 then
          alistSet synthesis "geographic_proximity" (8/10)
        else if countries.length < geoResults.length then
          alistSet synthesis "geographic_proximity" (5/10)
        else synthesis
  let synthesis :=
    match tr.threat with
    | none => synthesis
    | some threatResults =>
        let threatScores := threatResults.map (fun r => r.2.getD 0)
        if threatScores = [] then synthesis
        else
          alistSet synthesis "threat_correlation"
            (threatScores.sum / (threatScores.length : ℚ))
  synthesis

/-- Rendering of the §4.5 synthesis exactly as the spec words it: each of
the three slots is computed independently; `threat_correlation` is the
arithmetic mean of the available (present) `threat_score` values, 0.0 if
there are none; a missing tool output leaves its slot at 0.0. -/
def specSynthesis (tr : ToolResults) : List (String × ℚ) :=
  [("infrastructure_clustering",
     match tr.bgp with
     | none => 0
     | some rs =>
         if ((rs.map (·.2)).dedup.length = 1) then 8/10
         else if ((rs.map (·.2)).dedup.length < rs.length) then 5/10
         else 0),
   ("geographic_proximity",
     match tr.geo with
     | none => 0
     | some rs =>
         if ((rs.map (·.2)).dedup.length = 1) then 8/10
         else if ((rs.map (·.2)).dedup.length < rs.length) then 5/10
         else 0),
   ("threat_correlation",
     match tr.threat with
     | none => 0
     | some rs =>
         let avail := rs.filterMap (·.2)
         if avail = [] then 0 else avail.sum / (avail.length : ℚ))]

/-! ## §4.1 Intake & Dispatcher: result retrieval

Embeds `get_analysis_results`
(src/services/api/routers/coordination.py lines 413-455).
-/

/-- The `CoordinationResponse` model of the API router, restricted to the
fields the endpoints populate. -/
structure CoordinationResponse where
  analysisId : String
  status : String
  coordinationConfidence : Option ℚ
  evidence : Option (List (String × ℚ))
  enrichmentApplied : Bool
deriving DecidableEq

/-- `get_analysis_results`: the body performs no lookup of any store (the
retrieval is a `TODO` in the source) and returns the fixed mock response
for every analysis id and every caller; the 404 branch declared in the
route metadata is unreachable. -/
def getAnalysisResults (analysisId currentUser : String) : CoordinationResponse :=
  { analysisId := analysisId
    status := "completed"
    coordinationConfidence := some (75/100)
    evidence := some
      [("temporal_correlation", 8/10), ("behavioral_similarity", 7/10),
       ("infrastructure_clustering", 6/10), ("geographic_proximity", 5/10),
       ("payload_similarity", 9/10)]
    enrichmentApplied := true }

/-! ## Bulk analysis

Embeds `run_bulk_coordination_analysis`
(src/services/workflow/graph.py lines 341-397).  The per-batch call to
`run_coordination_analysis` is abstracted as an oracle `runOne` whose
`Except.error` models the call raising an exception.
-/

/-- One entry of the bulk result list: either the result dict of a batch
with its `batch_index` added, or the `{batch_index, error, status:
"failed"}` entry appended by the `except` branch. -/
inductive BulkEntry (α : Type) where
  | ok (batchIndex : Nat) (result : α)
  | failed (batchIndex : Nat) (error : String)
deriving DecidableEq

/-- The `for i, batch in enumerate(session_batches)` loop of
`run_bulk_coordination_analysis`, starting at index `i`: each batch is
processed in order, a raising batch contributes a `failed` entry and the
loop continues with the next batch. -/
def runBulkFrom {β α : Type} (runOne : β → Except String α) (i : Nat) :
    List β → List (BulkEntry α)
  | [] => []
  | batch :: rest =>
      (match runOne batch with
       | .ok r => BulkEntry.ok i r
       | .error e => BulkEntry.failed i e) :: runBulkFrom runOne (i + 1) rest

/-- `run_bulk_coordination_analysis`: sequential processing of the batches
from index 0. -/
def runBulkCoordinationAnalysis {β α : Type} (runOne : β → Except String α)
    (batches : List β) : List (BulkEntry α) :=
  runBulkFrom runOne 0 batches

/-! ## AttackSession request validation

Embeds the `AttackSession` pydantic model
(src/services/api/routers/coordination.py lines 36-95).  Under pydantic
v2 (the source imports `pydantic_settings` and `field_validator`), the
`Field(pattern=...)` constraint on `source_ip` is enforced before the
`validate_ip_address` validator runs, and the pattern is the IPv4
dotted-quad regular expression of line 54.  `ipaddress.ip_address` is
modelled by `pyIsIPv4`/`pyIsIPv6` following CPython's parsers.
-/

/-- The character class `[0-9]`. -/
def isDig (c : Char) : Bool := '0' ≤ c && c ≤ '9'

/-- The character class `[0-9a-fA-F]` used by IPv6 hextets. -/
def isHexDig (c : Char) : Bool :=
  isDig c || ('a' ≤ c && c ≤ 'f') || ('A' ≤ c && c ≤ 'F')

/-- Splits a character list at every occurrence of `sep`, keeping empty
segments — Python `str.split(sep)`. -/
def splitOnChar (sep : Char) : List Char → List (List Char)
  | [] => [[]]
  | c :: rest =>
      if c = sep then [] :: splitOnChar sep rest
      else
        match splitOnChar sep rest with
        | [] => [[c]]
        | p :: ps => (c :: p) :: ps

/-- One octet of the `source_ip` field pattern: the regex alternation
`25[0-5]|2[0-4][0-9]|[01]?[0-9][0-9]?` (so 1 digit, 2 digits, or 3 digits
of the listed shapes). -/
def octetRe (g : List Char) : Bool :=
  match g with
  | [a] => isDig a
  | [a, b] => isDig a && isDig b
  | [a, b, c] =>
      (a = '2' && b = '5' && ('0' ≤ c && c ≤ '5'))
      || (a = '2' && ('0' ≤ b && b ≤ '4') && isDig c)
      || ((a = '0' || a = '1') && isDig b && isDig c)
  | _ => false

/-- The anchored `pattern` of the `source_ip` field: exactly four octets
separated by dots. -/
def matchesIPv4Pattern (cs : List Char) : Bool :=
  match splitOnChar '.' cs with
  | [a, b, c, d] => octetRe a && octetRe b && octetRe c && octetRe d
  | _ => false

/-- Decimal value of a digit string, for the ≤ 255 check of
`ipaddress.IPv4Address`. -/
def digitsToNat (g : List Char) : Nat :=
  g.foldl (fun n c => n * 10 + (c.toNat - '0'.toNat)) 0

/-- One part of an `ipaddress.IPv4Address` literal: one to three digits,
no leading zero (CPython rejects leading zeros), value at most 255. -/
def pyIPv4Part (g : List Char) : Bool :=
  !g.isEmpty && g.length ≤ 3 && g.all isDig
  && (match g with
      | '0' :: _ :: _ => false
      | _ => true)
  && digitsToNat g ≤ 255

/-- `ipaddress.IPv4Address` acceptance of a textual address. -/
def pyIsIPv4 (cs : List Char) : Bool :=
  match splitOnChar '.' cs with
  | [a, b, c, d] => pyIPv4Part a && pyIPv4Part b && pyIPv4Part c && pyIPv4Part d
  | _ => false

/-- One hextet of an IPv6 literal: one to four hex digits. -/
def hextet (g : List Char) : Bool :=
  !g.isEmpty && g.length ≤ 4 && g.all isHexDig

/-- `ipaddress.IPv6Address` acceptance of a textual address, following
CPython's `_ip_int_from_string`: split on `:` (at least 3 parts), expand a
trailing embedded IPv4 into two hextet slots, allow at most one empty
interior part (the `::` marker, with leading/trailing `:` only as part of
`::`), require the explicit hextets to number at most 7 with a `::` and
exactly 8 without, each a valid hextet. -/
def pyIsIPv6 (cs : List Char) : Bool :=
  let parts0 := splitOnChar ':' cs
  if parts0.length < 3 then false
  else
    let lastPart := parts0.getLast?.getD []
    let hasV4 := lastPart.contains '.'
    if hasV4 && !pyIsIPv4 lastPart then false
    else
      let parts := if hasV4 then parts0.dropLast ++ [['0'], ['0']] else parts0
      if 9 < parts.length then false
      else
        let p0 := parts.getD 0 ['x']
        let plast := parts.getLast?.getD ['x']
        let interior := (parts.drop 1).dropLast
        if 2 ≤ interior.countP (·.isEmpty) then false
        else
          match List.findIdx? (·.isEmpty) interior with
          | some i =>
              let skipIndex := i + 1
              if p0.isEmpty && skipIndex ≠ 1 then false
              else if plast.isEmpty && skipIndex ≠ parts.length - 2 then false
              else
                let partsHi := if p0.isEmpty then skipIndex - 1 else skipIndex
                let partsLo := (parts.length - skipIndex - 1) -
                  (if plast.isEmpty then 1 else 0)
                if 7 < partsHi + partsLo then false
                else
                  (parts.take partsHi).all hextet
                  && (parts.reverse.take partsLo).all hextet
          | none =>
              parts.length = 8 && parts.all hextet

/-- `ipaddress.ip_address`: accepts IPv4 then IPv6. -/
def pyIsIPAddress (cs : List Char) : Bool := pyIsIPv4 cs || pyIsIPv6 cs

/-- Validation of the `source_ip` field under pydantic v2: the
`Field(pattern=...)` constraint (IPv4 dotted quad) runs first, then the
`validate_ip_address` validator (`ipaddress.ip_address`). -/
def sourceIpAccepted (cs : List Char) : Bool :=
  matchesIPv4Pattern cs && pyIsIPAddress cs

/-- The `protocol` field pattern `^[A-Z]{2,10}$`. -/
def protocolRe (cs : List Char) : Bool :=
  2 ≤ cs.length && cs.length ≤ 10 && cs.all (fun c => 'A' ≤ c && c ≤ 'Z')

/-- An `AttackSession` request record; the timestamp arrives already
schema-parsed (pydantic datetime coercion), as an integer instant. -/
structure AttackSessionInput where
  sourceIp : List Char
  timestamp : Int
  payload : List Char
  targetPort : Option Int
  protocol : Option (List Char)

/-- Acceptance of an `AttackSession` by the pydantic model at instant
`now`: source-ip validation, payload length in [1, 10000], optional port
in [1, 65535], optional protocol matching its pattern, timestamp not in
the future. -/
def attackSessionAccepted (now : Int) (s : AttackSessionInput) : Bool :=
  sourceIpAccepted s.sourceIp
  && (1 ≤ s.payload.length && s.payload.length ≤ 10000)
  && (match s.targetPort with
      | none => true
      | some p => 1 ≤ p && p ≤ 65535)
  && (match s.protocol with
      | none => true
      | some pr => protocolRe pr)
  && decide (s.timestamp ≤ now)

/-! ## §4.2-§4.4 Workflow engine and stage agents

Embeds the agent methods of src/services/workflow/agents.py, the routing
functions and path of src/services/workflow/graph.py, and the state of
src/services/workflow/state.py, for runs of `run_coordination_analysis`.
The LLM client is an oracle (`none` models `llm_client=None`); each
`datetime.utcnow()` call reads `clock tick` and advances the tick.
-/

/-- The structured result of `LLMClient.analyze_coordination`, restricted
to the fields the pattern analyzer reads. -/
structure LLMResult where
  coordinationConfidence : ℚ
  evidenceBreakdown : List (String × ℚ)
  reasoning : String

/-- The LLM client as an oracle over the two operations the agents call;
an `Except.error` models the awaited call raising. -/
structure LLMOracle where
  analyzeCoordination : String → List Session → Except String LLMResult
  scoreConfidence : List (String × ℚ) → Except String ℚ

/-- `PatternAnalyzerAgent._temporal_analysis`: fallback dict when the
client is absent, fallback dict with the error recorded when the call
raises, LLM-derived dict otherwise. -/
def temporalAnalysis (llm : Option LLMOracle) (sessions : List Session) : Dict :=
  match llm with
  | none => [("correlation_score", .num (1/2)), ("method", .str "fallback")]
  | some client =>
      match client.analyzeCoordination "temporal" sessions with
      | .ok r =>
          [("correlation_score", .num r.coordinationConfidence),
           ("evidence", .num (alistGetD r.evidenceBreakdown "temporal_correlation" 0)),
           ("reasoning", .str r.reasoning),
           ("method", .str "llm_analysis")]
      | .error e =>
          [("correlation_score", .num (1/2)), ("method", .str "fallback"),
           ("error", .str e)]

/-- `PatternAnalyzerAgent._behavioral_analysis`. -/
def behavioralAnalysis (llm : Option LLMOracle) (sessions : List Session) : Dict :=
  match llm with
  | none => [("similarity_score", .num (1/2)), ("method", .str "fallback")]
  | some client =>
      match client.analyzeCoordination "behavioral" sessions with
      | .ok r =>
          [("similarity_score", .num r.coordinationConfidence),
           ("evidence", .num (alistGetD r.evidenceBreakdown "behavioral_similarity" 0)),
           ("reasoning", .str r.reasoning),
           ("method", .str "llm_analysis")]
      | .error e =>
          [("similarity_score", .num (1/2)), ("method", .str "fallback"),
           ("error", .str e)]

/-- `PatternAnalyzerAgent._infrastructure_analysis`. -/
def infrastructureAnalysis (llm : Option LLMOracle) (sessions : List Session) : Dict :=
  match llm with
  | none => [("clustering_score", .num (1/2)), ("method", .str "fallback")]
  | some client =>
      match client.analyzeCoordination "infrastructure" sessions with
      | .ok r =>
          [("clustering_score", .num r.coordinationConfidence),
           ("evidence", .num (alistGetD r.evidenceBreakdown "infrastructure_clustering" 0)),
           ("reasoning", .str r.reasoning),
           ("method", .str "llm_analysis")]
      | .error e =>
          [("clustering_score", .num (1/2)), ("method", .str "fallback"),
           ("error", .str e)]

/-- The `final_assessment` dict built by the confidence scorer; the
free-text `reasoning` entry (a float-formatted prose string) is not
modelled, no claim reads it. -/
structure FinalAssessment where
  confidenceScore : ℚ
  evidenceScores : List (String × ℚ)
  assessment : String

/-- `CoordinationAnalysisState` (src/services/workflow/state.py),
restricted to the fields the agents touch.  `analysisPlan` keeps the
`analysis_steps` entry of the plan dict (its other entries restate
`analysis_depth`, `needs_deep_analysis` and the session count).
`processingSteps` keeps (step name, timestamp) pairs for the
`f"step: iso-timestamp"` entries. -/
structure WFState where
  attackSessions : List Session
  analysisDepth : String
  userId : Option String
  analysisPlan : List String
  needsDeepAnalysis : Bool
  correlationResults : List (String × Dict)
  enrichmentData : List (String × ℚ)
  toolResults : Option ToolResults
  coordinationConfidence : ℚ
  evidenceBreakdown : List (String × ℚ)
  finalAssessment : Option FinalAssessment
  workflowStartTime : Option Int
  workflowEndTime : Option Int
  processingSteps : List (String × Int)
  errors : List String

/-- The pydantic defaults of `CoordinationAnalysisState` for a fresh
run (`run_coordination_analysis` passes sessions, depth and user id). -/
def initialState (sessions : List Session) (depth : String)
    (user : Option String) : WFState :=
  { attackSessions := sessions
    analysisDepth := depth
    userId := user
    analysisPlan := []
    needsDeepAnalysis := false
    correlationResults := []
    enrichmentData := []
    toolResults := none
    coordinationConfidence := 0
    evidenceBreakdown := []
    finalAssessment := none
    workflowStartTime := none
    workflowEndTime := none
    processingSteps := []
    errors := [] }

/-- `CoordinationAnalysisState.add_processing_step`: appends the step with
the current clock reading and advances the tick. -/
def addStep (clock : Nat → Int) (name : String) (st : WFState) (tick : Nat) :
    WFState × Nat :=
  ({ st with processingSteps := st.processingSteps ++ [(name, clock tick)] },
   tick + 1)

/-- `CoordinationAnalysisState.get_processing_time`. -/
def getProcessingTime (st : WFState) : Option Int :=
  match st.workflowStartTime, st.workflowEndTime with
  | some s, some e => some (e - s)
  | _, _ => none

/-- `OrchestratorAgent._determine_analysis_steps`. -/
def determineAnalysisSteps (st : WFState) : List String :=
  ["pattern_analysis"]
  ++ (if st.needsDeepAnalysis then ["tool_coordination", "confidence_scoring"]
      else [])
  ++ (if st.analysisDepth = "deep" then ["elasticsearch_enrichment"] else [])

/-- `OrchestratorAgent.analyze_initial_data`: records the step, sets
`workflow_start_time`, decides `needs_deep_analysis`, emits the plan. -/
def analyzeInitialData (clock : Nat → Int) (st : WFState) (tick : Nat) :
    WFState × Nat :=
  let r := addStep clock "orchestrator_analysis" st tick
  let st := { r.1 with workflowStartTime := some (clock r.2) }
  let tick := r.2 + 1
  let st := { st with needsDeepAnalysis := shouldDeepAnalyze st.attackSessions }
  let st := { st with analysisPlan := determineAnalysisSteps st }
  (st, tick)

/-- `PatternAnalyzerAgent.analyze_patterns`: records the step and stores
the three sub-analyses.  The three helpers are total (they absorb oracle
failures), so the method's outer `except` branch is unreachable and the
stage never raises. -/
def analyzePatterns (llm : Option LLMOracle) (clock : Nat → Int)
    (st : WFState) (tick : Nat) : WFState × Nat :=
  let r := addStep clock "pattern_analysis" st tick
  let st := r.1
  ({ st with correlationResults :=
      [("temporal", temporalAnalysis llm st.attackSessions),
       ("behavioral", behavioralAnalysis llm st.attackSessions),
       ("infrastructure", infrastructureAnalysis llm st.attackSessions)] },
   r.2)

/-- `ToolCoordinatorAgent._determine_tools_needed`. -/
def determineToolsNeeded (st : WFState) : List String :=
  (if st.needsDeepAnalysis then ["bgp_lookup", "threat_intel", "geolocation"]
   else [])
  ++ (if st.analysisDepth = "deep" then ["asn_analysis"] else [])

/-- The `source_ips` set comprehension of
`ToolCoordinatorAgent._execute_tools`: the distinct truthy (present,
non-empty) source addresses.  Python's set-iteration order is arbitrary;
first-occurrence order is used here, and everything computed downstream
from the table depends only on its cardinalities and value multisets. -/
def collectSourceIps (sessions : List Session) : List String :=
  ((sessions.filterMap (·.sourceIp)).filter (fun s => s ≠ "")).dedup

/-- `ToolCoordinatorAgent._execute_tools` over the four mock tools of the
source: per requested tool, the per-address table with the constant mock
values (`asn "AS12345"`, `threat_score 0.3`, `country "US"`).  The mock
tools cannot raise, so the per-tool `except` branch is unreachable. -/
def executeTools (tools : List String) (ips : List String) : ToolResults :=
  { bgp := if tools.contains "bgp_lookup"
      then some (ips.map (fun ip => (ip, some "AS12345"))) else none
    threat := if tools.contains "threat_intel"
      then some (ips.map (fun ip => (ip, some (3/10)))) else none
    geo := if tools.contains "geolocation"
      then some (ips.map (fun ip => (ip, some "US"))) else none
    asn := if tools.contains "asn_analysis"
      then some (ips.map (fun ip => (ip, some "AS12345"))) else none }

/-- `ToolCoordinatorAgent.execute_analysis_plan`: records the step,
executes the tools and synthesizes the enrichment data. -/
def executeAnalysisPlan (clock : Nat → Int) (st : WFState) (tick : Nat) :
    WFState × Nat :=
  let r := addStep clock "tool_coordination" st tick
  let st := r.1
  let results := executeTools (determineToolsNeeded st)
    (collectSourceIps st.attackSessions)
  ({ st with toolResults := some results
             enrichmentData := synthesizeResults results }, r.2)

/-- `ConfidenceScorerAgent._get_assessment`: the confidence buckets. -/
def getAssessment (c : ℚ) : String :=
  if 8/10 ≤ c then "highly_coordinated"
  else if 6/10 ≤ c then "likely_coordinated"
  else if 4/10 ≤ c then "possibly_coordinated"
  else if 2/10 ≤ c then "likely_coincidental"
  else "coincidental"

/-- `ConfidenceScorerAgent._llm_confidence_scoring`: the oracle's score
when it answers, the statistical fallback when it is absent or raises. -/
def llmConfidenceScoring (llm : Option LLMOracle)
    (ev : List (String × ℚ)) : ℚ :=
  match llm with
  | none => statisticalConfidenceScoring ev
  | some client =>
      match client.scoreConfidence ev with
      | .ok s => s
      | .error _ => statisticalConfidenceScoring ev

/-- `ConfidenceScorerAgent.calculate_coordination_score`: records the
step, extracts the evidence vector, scores it, stores confidence,
breakdown and final assessment. -/
def calculateCoordinationScore (llm : Option LLMOracle) (clock : Nat → Int)
    (st : WFState) (tick : Nat) : WFState × Nat :=
  let r := addStep clock "confidence_scoring" st tick
  let st := r.1
  let ev := extractEvidenceScores st.correlationResults st.enrichmentData
  let score :=
    match llm with
    | some _ => llmConfidenceScoring llm ev
    | none => statisticalConfidenceScoring ev
  ({ st with coordinationConfidence := score
             evidenceBreakdown := ev
             finalAssessment := some ⟨score, ev, getAssessment score⟩ }, r.2)

/-- `ElasticsearchEnricherAgent.enrich_attack_sessions`: records the step,
reads the clock once more for the discarded `analysis_timestamp` of the
mock enrichment dict, then sets `workflow_end_time` (outside the `try`,
hence unconditionally). -/
def enrichAttackSessions (clock : Nat → Int) (st : WFState) (tick : Nat) :
    WFState × Nat :=
  let r := addStep clock "elasticsearch_enrichment" st tick
  let tick2 := r.2 + 1
  ({ r.1 with workflowEndTime := some (clock tick2) }, tick2 + 1)

/-- `route_after_pattern_analysis` (src/services/workflow/graph.py). -/
def routeAfterPatternAnalysis (st : WFState) : String :=
  if st.needsDeepAnalysis then "tool_coordinator" else "confidence_scorer"

/-- `route_after_confidence_scoring` (src/services/workflow/graph.py). -/
def routeAfterConfidenceScoring (st : WFState) : String :=
  if st.analysisDepth = "deep" then "elasticsearch_enricher" else "end"

/-- `run_coordination_analysis` over the compiled graph: orchestrator,
then (unconditionally) pattern analyzer, then tool coordinator when
`needs_deep_analysis` routes there, then confidence scorer, then the
Elasticsearch enricher exactly when `route_after_confidence_scoring`
chooses it, then END. -/
def runCoordinationAnalysis (llm : Option LLMOracle) (clock : Nat → Int)
    (sessions : List Session) (depth : String) (user : Option String) :
    WFState :=
  let r1 := analyzeInitialData clock (initialState sessions depth user) 0
  let r2 := analyzePatterns llm clock r1.1 r1.2
  let r3 :=
    if routeAfterPatternAnalysis r2.1 = "tool_coordinator" then
      let ra := executeAnalysisPlan clock r2.1 r2.2
      calculateCoordinationScore llm clock ra.1 ra.2
    else
      calculateCoordinationScore llm clock r2.1 r2.2
  if routeAfterConfidenceScoring r3.1 = "elasticsearch_enricher" then
    (enrichAttackSessions clock r3.1 r3.2).1
  else r3.1

/-! ## §4.9 Rate limiter

Embeds `RateLimiter.check_rate_limit`
(src/services/database/rate_limiting.py lines 76-146).  The Redis sorted
set of one key is modelled as the list of member scores; since the member
string is `str(current_time)` and its score is `current_time`, members are
exactly the distinct request seconds, and `zadd` on an existing member
rewrites the same score (no growth).  `zremrangebyscore(key, 0, cutoff)`
removes the scores in `[0, cutoff]`; `zrange(key, 0, 0)` returns the
lowest score.
-/

/-- The observable outcome of one `check_rate_limit` call: the fields of
the returned `rate_limit_info` that the claims read, plus the window set
after the call. -/
structure RateLimitOutcome where
  allowed : Bool
  remaining : Int
  retryAfter : Int
  entries : List Int
deriving DecidableEq

/-- `RateLimiter._clean_old_entries`: drops the scores in
`[0, now − window]`. -/
def cleanOldEntries (entries : List Int) (now window : Int) : List Int :=
  entries.filter (fun t => !(decide (0 ≤ t) && decide (t ≤ now - window)))

/-- `RateLimiter.check_rate_limit` for one key: clean, count, deny with
retry-after when the count reaches the limit, else add the current second
(a no-op when already present, by member identity) and accept. -/
def checkRateLimit (entries : List Int) (now : Int) (limit : Nat)
    (window : Int) : RateLimitOutcome :=
  let cleaned := cleanOldEntries entries now window
  let n := cleaned.length
  if limit ≤ n then
    let retryAfter :=
      match cleaned.min? with
      | some oldest => max 0 (window - (now - oldest))
      | none => 0
    { allowed := false, remaining := 0, retryAfter := retryAfter,
      entries := cleaned }
  else
    { allowed := true, remaining := (limit : Int) - n - 1, retryAfter := 0,
      entries := if cleaned.contains now then cleaned else cleaned ++ [now] }

/-- One request against the limiter state: the new window set, and the
request time appended to the accepted log when admitted. -/
def rlStep (limit : Nat) (window : Int) (acc : List Int × List Int)
    (now : Int) : List Int × List Int :=
  let out := checkRateLimit acc.1 now limit window
  (out.entries, if out.allowed then acc.2 ++ [now] else acc.2)

/-- A sequence of requests for one key against an initially empty window
set; the second component is the list of admitted request times. -/
def runRateLimiter (reqs : List Int) (limit : Nat) (window : Int) :
    List Int × List Int :=
  reqs.foldl (rlStep limit window) ([], [])

/-- Number of the given instants lying in the rolling window `(T −
window, T]`. -/
def countWindow (times : List Int) (window T : Int) : Nat :=
  times.countP (fun t => decide (T - window < t) && decide (t ≤ T))

/-! # Theorems -/

/-! ## C1: weighted-mean confidence fallback -/

theorem weightOf_pos (k : String) : 0 < weightOf k := by
  unfold weightOf
  repeat' split
  all_goals norm_num

theorem totalWeight_nonneg (scores : List (String × ℚ)) : 0 ≤ totalWeight scores := by
  induction scores with
  | nil => simp [totalWeight]
  | cons kv rest ih =>
      have := weightOf_pos kv.1
      calc (0:ℚ) ≤ weightOf kv.1 + totalWeight rest := by positivity
        _ = totalWeight (kv :: rest) := by
              cases kv; simp [totalWeight]

theorem totalWeight_pos_of_ne_nil (scores : List (String × ℚ)) (h : scores ≠ []) :
    0 < totalWeight scores := by
  cases scores with
  | nil => exact absurd rfl h
  | cons kv rest =>
      have h1 := weightOf_pos kv.1
      have h2 := totalWeight_nonneg rest
      cases kv
      simp only [totalWeight]
      linarith

theorem weightedSum_nonneg (scores : List (String × ℚ))
    (h : ∀ kv ∈ scores, 0 ≤ kv.2 ∧ kv.2 ≤ 1) : 0 ≤ weightedSum scores := by
  induction scores with
  | nil => simp [weightedSum]
  | cons kv rest ih =>
      have hkv := h kv (List.mem_cons_self kv rest)
      have hrest : 0 ≤ weightedSum rest :=
        ih (fun x hx => h x (List.mem_cons_of_mem kv hx))
      have hw := weightOf_pos kv.1
      cases kv with
      | mk k s =>
          simp only [weightedSum]
          have : 0 ≤ s * weightOf k := mul_nonneg hkv.1 (le_of_lt hw)
          linarith

theorem weightedSum_le_totalWeight (scores : List (String × ℚ))
    (h : ∀ kv ∈ scores, 0 ≤ kv.2 ∧ kv.2 ≤ 1) :
    weightedSum scores ≤ totalWeight scores := by
  induction scores with
  | nil => simp [weightedSum, totalWeight]
  | cons kv rest ih =>
      have hkv := h kv (List.mem_cons_self kv rest)
      have hrest : weightedSum rest ≤ totalWeight rest :=
        ih (fun x hx => h x (List.mem_cons_of_mem kv hx))
      have hw := weightOf_pos kv.1
      cases kv with
      | mk k s =>
          simp only [weightedSum, totalWeight]
          have : s * weightOf k ≤ 1 * weightOf k :=
            mul_le_mul_of_nonneg_right hkv.2 (le_of_lt hw)
          simp only [one_mul] at this
          linarith

/-- C1: the weighted-mean confidence fallback is a pure function of the
evidence-score map.  It uses the weights 0.25 / 0.25 / 0.20 / 0.15 / 0.15
for the five canonical dimensions and 0.10 for any other key (`weightOf`),
returns `weightedSum / totalWeight`, returns 0.5 on an empty map or total
weight 0, agrees between its two copies in the source
(`_statistical_confidence_scoring` and `_estimate_confidence`), and for
every input map with values in [0,1] the result lies in [0,1].
Determinism is witnessed by the embedding being a pure function. -/
theorem confidence_fallback_weighted_mean (scores : List (String × ℚ))
    (h : ∀ kv ∈ scores, 0 ≤ kv.2 ∧ kv.2 ≤ 1) :
    statisticalConfidenceScoring scores = estimateConfidence scores
    ∧ (scores = [] → statisticalConfidenceScoring scores = 1/2)
    ∧ (totalWeight scores = 0 → statisticalConfidenceScoring scores = 1/2)
    ∧ (scores ≠ [] →
        statisticalConfidenceScoring scores = weightedSum scores / totalWeight scores)
    ∧ weightOf "temporal_correlation" = 25/100
    ∧ weightOf "behavioral_similarity" = 25/100
    ∧ weightOf "infrastructure_clustering" = 20/100
    ∧ weightOf "geographic_proximity" = 15/100
    ∧ weightOf "payload_similarity" = 15/100
    ∧ weightOf "some_other_dimension" = 10/100
    ∧ 0 ≤ statisticalConfidenceScoring scores
    ∧ statisticalConfidenceScoring scores ≤ 1 := by
  have hbounds : 0 ≤ statisticalConfidenceScoring scores
      ∧ statisticalConfidenceScoring scores ≤ 1 := by
    unfold statisticalConfidenceScoring
    by_cases hnil : scores = []
    · simp [hnil]; norm_num
    · have htw := totalWeight_pos_of_ne_nil scores hnil
      have hws0 := weightedSum_nonneg scores h
      have hwst := weightedSum_le_totalWeight scores h
      simp only [hnil, if_false, htw, if_true]
      constructor
      · positivity
      · rw [div_le_one htw]; exact hwst
  refine ⟨rfl, ?_, ?_, ?_, by rfl, by rfl,
    by rfl, by rfl, by rfl,
    by rfl, hbounds.1, hbounds.2⟩
  · intro hnil; simp [statisticalConfidenceScoring, hnil]
  · intro htw0
    have hnil : scores = [] := by
      by_contra hne
      exact absurd htw0 (ne_of_gt (totalWeight_pos_of_ne_nil scores hne))
    simp [statisticalConfidenceScoring, hnil]
  · intro hne
    have htw := totalWeight_pos_of_ne_nil scores hne
    simp [statisticalConfidenceScoring, hne, htw]

/-- Witness for C1 at the concrete evidence map
`{temporal_correlation ↦ 0.8, extra ↦ 0.3}`. -/
theorem confidence_fallback_weighted_mean_witness :
    statisticalConfidenceScoring
        [("temporal_correlation", 8/10), ("extra", 3/10)] =
      estimateConfidence [("temporal_correlation", 8/10), ("extra", 3/10)]
    ∧ 0 ≤ statisticalConfidenceScoring
        [("temporal_correlation", 8/10), ("extra", 3/10)]
    ∧ statisticalConfidenceScoring
        [("temporal_correlation", 8/10), ("extra", 3/10)] ≤ 1 := by
  have h := confidence_fallback_weighted_mean
    [("temporal_correlation", 8/10), ("extra", 3/10)]
    (by intro kv hkv; fin_cases hkv <;> norm_num)
  exact ⟨h.1, h.2.2.2.2.2.2.2.2.2.2.1, h.2.2.2.2.2.2.2.2.2.2.2⟩

/-! ## C2: source of the infrastructure_clustering evidence entry -/

/-- C2 counterexample: with
`correlation_results.infrastructure.clustering_score = 0.3` and
`enrichment_data.infrastructure_clustering = 0.8` both present, the
assembled evidence vector carries 0.3, not the enrichment value 0.8 — the
claimed preference for `enrichment_data.infrastructure_clustering` does not
exist in `_extract_evidence_scores`. -/
theorem evidence_infrastructure_ignores_enrichment :
    alistGet
      (extractEvidenceScores
        [("infrastructure", [("clustering_score", Val.num (3/10))])]
        [("infrastructure_clustering", 8/10)])
      "infrastructure_clustering" = some (3/10)
    ∧ (3/10 : ℚ) ≠ 8/10 := by
  constructor
  · rfl
  · norm_num

/-- C2 amended: the `infrastructure_clustering` entry of the evidence
vector always comes from `correlation_results.infrastructure`'s
`clustering_score` (default 0.0) whenever `correlation_results` is
non-empty, and is absent when `correlation_results` is empty;
`enrichment_data.infrastructure_clustering` is never consulted. -/
theorem evidence_infrastructure_from_correlation
    (correlationResults : List (String × Dict))
    (enrichmentData : List (String × ℚ)) :
    alistGet (extractEvidenceScores correlationResults enrichmentData)
        "infrastructure_clustering" =
      if correlationResults = [] then none
      else some (getNumD (alistGetD correlationResults "infrastructure" [])
        "clustering_score" 0) := by
  by_cases hc : correlationResults = [] <;>
    by_cases he : enrichmentData = [] <;>
      simp [extractEvidenceScores, hc, he, alistGet]

/-! ## C3: the deep-analysis routing heuristic -/

theorem half_lt_iff (s n : ℕ) : ((n:ℚ) * (1/2) < (s:ℚ)) ↔ (n < 2 * s) := by
  constructor
  · intro h
    have : (n:ℚ) < 2 * (s:ℚ) := by linarith
    exact_mod_cast this
  · intro h
    have : (n:ℚ) < 2 * (s:ℚ) := by exact_mod_cast h
    linarith

/-- C3: `_should_deep_analyze` computes exactly the four-step algorithm of
§4.3 — false for fewer than 3 sessions, false for a single distinct source
address, and otherwise true iff at least 3 timestamps parse and the
consecutive intervals shorter than 300 s outnumber half of the
intervals. -/
theorem should_deep_analyze_follows_spec (sessions : List Session) :
    shouldDeepAnalyze sessions = specNeedsDeep sessions := by
  unfold shouldDeepAnalyze specNeedsDeep
  by_cases h1 : sessions.length < 3
  · simp [h1]
  · simp only [h1, if_false]
    by_cases h2 : ((sessions.map (·.sourceIp)).dedup.length = 1)
    · simp [h2]
    · simp only [h2, if_false]
      by_cases h3 : 3 ≤ (collectTimestamps sessions).length
      · simp only [h3, if_true]
        rw [decide_eq_decide]
        exact (half_lt_iff _ _).trans (by omega)
      · simp [h3]

/-! ## C5: deterministic synthesis of tool outputs -/

theorem dedup_length_eq_one_iff {α : Type} [DecidableEq α] (l : List α) :
    l.dedup.length = 1 ↔ ∃ a, l ≠ [] ∧ ∀ x ∈ l, x = a := by
  constructor
  · intro h
    obtain ⟨a, ha⟩ := List.length_eq_one.mp h
    refine ⟨a, ?_, ?_⟩
    · intro hnil; rw [hnil] at ha; simp [List.dedup] at ha
    · intro x hx
      have : x ∈ l.dedup := List.mem_dedup.mpr hx
      rw [ha] at this
      simpa using this
  · rintro ⟨a, hne, hall⟩
    have hmem : a ∈ l.dedup := by
      obtain ⟨x, hx⟩ := List.exists_mem_of_ne_nil l hne
      have := hall x hx
      subst this
      exact List.mem_dedup.mpr hx
    have halld : ∀ x ∈ l.dedup, x = a := fun x hx =>
      hall x (List.mem_dedup.mp hx)
    have hnd := l.nodup_dedup
    cases hd : l.dedup with
    | nil => rw [hd] at hmem; simp at hmem
    | cons x xs =>
        cases hxs : xs with
        | nil => simp [hd, hxs]
        | cons y ys =>
            exfalso
            rw [hd, hxs] at hnd halld
            have hx := halld x (by simp)
            have hy := halld y (by simp)
            subst hx
            rw [hy] at hnd
            simp at hnd

theorem filterMap_eq_map_getD (rs : List (String × Option ℚ))
    (h : ∀ r ∈ rs, r.2.isSome) :
    rs.filterMap (·.2) = rs.map (fun r => r.2.getD 0) := by
  induction rs with
  | nil => rfl
  | cons r rest ih =>
      have hr := h r (List.mem_cons_self r rest)
      have hrest := ih (fun x hx => h x (List.mem_cons_of_mem r hx))
      obtain ⟨q, hq⟩ := Option.isSome_iff_exists.mp hr
      simp [List.filterMap_cons, hq, hrest]

/-- C5: the tool synthesis is a deterministic function of the collected
tool outputs (the embedding is a pure function): it equals the per-slot
formulas of §4.5 — 0.8 / 0.5 / 0.0 for infrastructure and geography by ASN
and country cardinality, the arithmetic mean of the available
`threat_score` values (0.0 if none) for threat correlation — a missing
tool output leaves its slot at 0.0, and the 0.8 infrastructure and
geography cases hold exactly when all looked-up addresses share one ASN
and one country respectively.  The hypothesis is the §4.5 tool contract:
every `threat_intel` row carries a `threat_score`. -/
theorem tool_synthesis_follows_spec (tr : ToolResults)
    (hthreat : ∀ rs, tr.threat = some rs → ∀ r ∈ rs, r.2.isSome) :
    synthesizeResults tr = specSynthesis tr
    ∧ (tr.bgp = none →
        alistGetD (synthesizeResults tr) "infrastructure_clustering" 0 = 0)
    ∧ (tr.geo = none →
        alistGetD (synthesizeResults tr) "geographic_proximity" 0 = 0)
    ∧ (tr.threat = none →
        alistGetD (synthesizeResults tr) "threat_correlation" 0 = 0)
    ∧ (∀ rs, tr.bgp = some rs →
        ((∃ a, rs ≠ [] ∧ ∀ r ∈ rs, r.2 = a) ↔
          alistGetD (synthesizeResults tr) "infrastructure_clustering" 0 = 8/10))
    ∧ (∀ rs, tr.geo = some rs →
        ((∃ c, rs ≠ [] ∧ ∀ r ∈ rs, r.2 = c) ↔
          alistGetD (synthesizeResults tr) "geographic_proximity" 0 = 8/10)) := by
  obtain ⟨bgp, threat, geo, asn⟩ := tr
  have hth : ∀ rs, threat = some rs →
      rs.filterMap (·.2) = rs.map (fun r => r.2.getD 0) := by
    intro rs h
    exact filterMap_eq_map_getD rs (hthreat rs h)
  have heq : synthesizeResults ⟨bgp, threat, geo, asn⟩ =
      specSynthesis ⟨bgp, threat, geo, asn⟩ := by
    cases bgp <;> cases geo <;> cases threat <;>
      simp only [synthesizeResults, specSynthesis] <;>
      (try rw [hth _ rfl]) <;>
      split_ifs <;>
      simp_all [alistSet]
  refine ⟨heq, ?_, ?_, ?_, ?_, ?_⟩ <;> rw [heq]
  · intro h
    cases h
    simp [specSynthesis, alistGetD, alistGet]
  · intro h
    cases h
    simp [specSynthesis, alistGetD, alistGet]
  · intro h
    cases h
    simp [specSynthesis, alistGetD, alistGet]
  · intro rs h
    cases h
    have hval : alistGetD (specSynthesis ⟨some rs, threat, geo, asn⟩)
        "infrastructure_clustering" 0 =
        (if ((rs.map (·.2)).dedup.length = 1) then (8:ℚ)/10
         else if ((rs.map (·.2)).dedup.length < rs.length) then 5/10 else 0) := by
      simp [specSynthesis, alistGetD, alistGet]
    rw [hval]
    constructor
    · rintro ⟨a, hne, hall⟩
      have h1 : (rs.map (·.2)).dedup.length = 1 :=
        (dedup_length_eq_one_iff _).mpr
          ⟨a, fun hm => hne (List.map_eq_nil.mp hm), by
            intro x hx
            obtain ⟨r, hr, rfl⟩ := List.mem_map.mp hx
            exact hall r hr⟩
      simp [h1]
    · intro hv
      by_cases h1 : (rs.map (·.2)).dedup.length = 1
      · obtain ⟨a, hne, hall⟩ := (dedup_length_eq_one_iff _).mp h1
        refine ⟨a, fun hrs => hne (by simp [hrs]), fun r hr =>
          hall _ (List.mem_map_of_mem _ hr)⟩
      · exfalso
        rw [if_neg h1] at hv
        revert hv
        split_ifs <;> norm_num
  · intro rs h
    cases h
    have hval : alistGetD (specSynthesis ⟨bgp, threat, some rs, asn⟩)
        "geographic_proximity" 0 =
        (if ((rs.map (·.2)).dedup.length = 1) then (8:ℚ)/10
         else if ((rs.map (·.2)).dedup.length < rs.length) then 5/10 else 0) := by
      simp [specSynthesis, alistGetD, alistGet]
    rw [hval]
    constructor
    · rintro ⟨a, hne, hall⟩
      have h1 : (rs.map (·.2)).dedup.length = 1 :=
        (dedup_length_eq_one_iff _).mpr
          ⟨a, fun hm => hne (List.map_eq_nil.mp hm), by
            intro x hx
            obtain ⟨r, hr, rfl⟩ := List.mem_map.mp hx
            exact hall r hr⟩
      simp [h1]
    · intro hv
      by_cases h1 : (rs.map (·.2)).dedup.length = 1
      · obtain ⟨a, hne, hall⟩ := (dedup_length_eq_one_iff _).mp h1
        refine ⟨a, fun hrs => hne (by simp [hrs]), fun r hr =>
          hall _ (List.mem_map_of_mem _ hr)⟩
      · exfalso
        rw [if_neg h1] at hv
        revert hv
        split_ifs <;> norm_num

/-! ## C9: IPv6 source addresses and request validation -/

theorem splitOnChar_ne_nil (sep : Char) (cs : List Char) :
    splitOnChar sep cs ≠ [] := by
  cases cs with
  | nil => simp [splitOnChar]
  | cons c rest =>
      by_cases hc : c = sep
      · simp [splitOnChar, hc]
      · simp only [splitOnChar, hc, if_false]
        cases hsp : splitOnChar sep rest <;> simp

theorem length_splitOnChar (sep : Char) (cs : List Char) :
    (splitOnChar sep cs).length = cs.countP (fun c => c == sep) + 1 := by
  induction cs with
  | nil => simp [splitOnChar]
  | cons c rest ih =>
      by_cases hc : c = sep
      · simp [splitOnChar, hc, List.countP_cons, ih]
      · have hbe : (c == sep) = false := by simp [hc]
        cases hsp : splitOnChar sep rest with
        | nil => exact absurd hsp (splitOnChar_ne_nil sep rest)
        | cons p ps =>
            rw [hsp] at ih
            simp [splitOnChar, hc, hsp, List.countP_cons, hbe] at *
            omega

theorem mem_splitOnChar (sep : Char) (cs : List Char) (x : Char)
    (hx : x ∈ cs) : x = sep ∨ ∃ p ∈ splitOnChar sep cs, x ∈ p := by
  induction cs with
  | nil => simp at hx
  | cons c rest ih =>
      rcases List.mem_cons.mp hx with rfl | hrest
      · by_cases hc : x = sep
        · exact Or.inl hc
        · refine Or.inr ?_
          cases hsp : splitOnChar sep rest with
          | nil => exact absurd hsp (splitOnChar_ne_nil sep rest)
          | cons p ps =>
              exact ⟨x :: p, by simp [splitOnChar, hc, hsp], by simp⟩
      · rcases ih hrest with heq | ⟨p, hp, hxp⟩
        · exact Or.inl heq
        · by_cases hc : c = sep
          · exact Or.inr ⟨p, by simp [splitOnChar, hc, hp], hxp⟩
          · cases hsp : splitOnChar sep rest with
            | nil => exact absurd hsp (splitOnChar_ne_nil sep rest)
            | cons q qs =>
                rw [hsp] at hp
                rcases List.mem_cons.mp hp with rfl | hq
                · exact Or.inr ⟨c :: p, by simp [splitOnChar, hc, hsp],
                    List.mem_cons_of_mem c hxp⟩
                · exact Or.inr ⟨p, by simp [splitOnChar, hc, hsp, hq], hxp⟩

theorem isDig_of_bounds (c : Char) (h0 : '0' ≤ c) (h9 : c ≤ '9') :
    isDig c = true := by
  simp only [isDig, Bool.and_eq_true, decide_eq_true_eq]
  exact ⟨h0, h9⟩

theorem octet_chars_digits (g : List Char) (h : octetRe g = true) :
    ∀ x ∈ g, isDig x = true := by
  match g with
  | [] => simp [octetRe] at h
  | [a] =>
      intro x hx
      simp only [List.mem_singleton] at hx
      subst hx
      simpa [octetRe] using h
  | [a, b] =>
      simp only [octetRe, Bool.and_eq_true] at h
      intro x hx
      simp only [List.mem_cons, List.mem_singleton, List.not_mem_nil,
        or_false] at hx
      rcases hx with rfl | rfl
      · exact h.1
      · exact h.2
  | [a, b, c] =>
      simp only [octetRe, Bool.or_eq_true, Bool.and_eq_true,
        decide_eq_true_eq] at h
      intro x hx
      simp only [List.mem_cons, List.mem_singleton, List.not_mem_nil,
        or_false] at hx
      rcases h with (⟨⟨ha, hb⟩, hc0, hc5⟩ | ⟨⟨ha, hb0, hb4⟩, hc⟩) | ⟨⟨ha, hb⟩, hc⟩
      · rcases hx with rfl | rfl | rfl
        · rw [ha]; decide
        · rw [hb]; decide
        · exact isDig_of_bounds x hc0 (le_trans hc5 (by decide))
      · rcases hx with rfl | rfl | rfl
        · rw [ha]; decide
        · exact isDig_of_bounds x hb0 (le_trans hb4 (by decide))
        · exact hc
      · rcases hx with rfl | rfl | rfl
        · rcases ha with h1 | h1 <;> (rw [h1]; decide)
        · exact hb
        · exact hc
  | _ :: _ :: _ :: _ :: _ => simp [octetRe] at h

theorem matchesIPv4Pattern_no_colon (cs : List Char)
    (h : matchesIPv4Pattern cs = true) : ':' ∉ cs := by
  intro hmem
  rcases mem_splitOnChar '.' cs ':' hmem with heq | ⟨p, hp, hcp⟩
  · exact absurd heq (by decide)
  · unfold matchesIPv4Pattern at h
    cases hsp : splitOnChar '.' cs with
    | nil => exact absurd hsp (splitOnChar_ne_nil '.' cs)
    | cons a rest =>
        rw [hsp] at h hp
        cases rest with
        | nil => simp at h
        | cons b rest2 =>
        cases rest2 with
        | nil => simp at h
        | cons c rest3 =>
        cases rest3 with
        | nil => simp at h
        | cons d rest4 =>
        cases rest4 with
        | cons e rest5 => simp at h
        | nil =>
            have h4 : (octetRe a && octetRe b && octetRe c && octetRe d) = true := h
            simp only [Bool.and_eq_true] at h4
            simp only [List.mem_cons, List.not_mem_nil, or_false] at hp
            have hoct : octetRe p = true := by
              rcases hp with rfl | rfl | rfl | rfl
              · exact h4.1.1.1
              · exact h4.1.1.2
              · exact h4.1.2
              · exact h4.2
            have := octet_chars_digits p hoct ':' hcp
            exact absurd this (by decide)

theorem colon_mem_of_pyIsIPv6 (cs : List Char) (h : pyIsIPv6 cs = true) :
    ':' ∈ cs := by
  have h3 : ¬ ((splitOnChar ':' cs).length < 3) := by
    intro hlt
    simp only [pyIsIPv6] at h
    rw [if_pos hlt] at h
    exact Bool.false_ne_true h
  have hcount : 2 ≤ cs.countP (fun c => c == ':') := by
    have := length_splitOnChar ':' cs
    omega
  have hpos : 0 < cs.countP (fun c => c == ':') := by omega
  obtain ⟨a, ha, hpa⟩ := List.countP_pos.mp hpos
  have haeq : a = ':' := by simpa using hpa
  rwa [haeq] at ha

/-- C9: the claim fails on the code — for every syntactically valid
textual IPv6 address, an `AttackSession` carrying it as `source_ip` is
rejected (at any instant, whatever the other fields), because the
pydantic-v2-enforced `pattern` on `source_ip` only admits IPv4 dotted
quads; yet `ipaddress.ip_address`, the check the field's own validator
applies, accepts the address, exhibiting the divergence between the
field's two validation layers. -/
theorem ipv6_source_ip_rejected (now : Int) (s : AttackSessionInput)
    (h : pyIsIPv6 s.sourceIp = true) :
    attackSessionAccepted now s = false ∧ pyIsIPAddress s.sourceIp = true := by
  have hcolon := colon_mem_of_pyIsIPv6 _ h
  have hpat : matchesIPv4Pattern s.sourceIp = false := by
    cases hmp : matchesIPv4Pattern s.sourceIp
    · rfl
    · exact absurd hcolon (matchesIPv4Pattern_no_colon _ hmp)
  constructor
  · simp [attackSessionAccepted, sourceIpAccepted, hpat]
  · simp [pyIsIPAddress, h]

/-- Witness for C9 at the concrete IPv6 address `2001:db8::1` with
otherwise valid fields (timestamp 0 ≤ now = 1000, non-empty short
payload, port 80, protocol `HTTP`). -/
theorem ipv6_source_ip_rejected_witness :
    attackSessionAccepted 1000
        ⟨"2001:db8::1".data, 0, "GET /admin HTTP/1.1".data,
         some 80, some "HTTP".data⟩ = false
    ∧ pyIsIPAddress "2001:db8::1".data = true := by
  have h := ipv6_source_ip_rejected 1000
    ⟨"2001:db8::1".data, 0, "GET /admin HTTP/1.1".data,
     some 80, some "HTTP".data⟩ (by decide)
  exact ⟨h.1, h.2⟩

/-! ## C6: the sliding-window rate limiter -/

/-- C6 counterexample: three requests in the same second 5 under limit 2,
window 60 s, are all admitted — `zadd` with member `str(now)` cannot
count same-second arrivals separately, so more than L requests pass in
one rolling window. -/
theorem rate_limiter_same_second_burst :
    (runRateLimiter [5, 5, 5] 2 60).2 = [5, 5, 5]
    ∧ countWindow (runRateLimiter [5, 5, 5] 2 60).2 60 5 = 3 := by
  constructor
  · rfl
  · rfl

theorem countP_congr_mem {α : Type} (l : List α) (p q : α → Bool)
    (h : ∀ a ∈ l, p a = q a) : l.countP p = l.countP q := by
  rw [List.countP_eq_length_filter, List.countP_eq_length_filter,
    List.filter_congr h]

theorem rl_run_invariant (limit : Nat) (window : Int) (hw : 0 < window) :
    ∀ (reqs entries accepted : List Int) (tprev : Int),
      (∀ a ∈ accepted, 0 ≤ a ∧ a ≤ tprev) →
      entries = accepted.filter (fun a => decide (tprev - window < a)) →
      (∀ T, countWindow accepted window T ≤ limit) →
      (∀ t ∈ reqs, tprev < t) →
      reqs.Pairwise (· < ·) →
      (∀ t ∈ reqs, 0 ≤ t) →
      ∀ T,
        countWindow
          (reqs.foldl (rlStep limit window) (entries, accepted)).2 window T
          ≤ limit := by
  intro reqs
  induction reqs with
  | nil =>
      intro entries accepted tprev hA hB hC hD hE hF T
      simpa [List.foldl_nil] using hC T
  | cons t rest ih =>
      intro entries accepted tprev hA hB hC hD hE hF T
      have htprev : tprev < t := hD t (List.mem_cons_self t rest)
      obtain ⟨hlt, hrestPair⟩ := List.pairwise_cons.mp hE
      have hclean : cleanOldEntries entries t window =
          accepted.filter (fun a => decide (t - window < a)) := by
        rw [hB, cleanOldEntries, List.filter_filter]
        apply List.filter_congr
        intro a ha
        have ha0 := (hA a ha).1
        by_cases hta : t - window < a
        · have h1 : tprev - window < a := by omega
          have h2 : ¬ (a ≤ t - window) := by omega
          simp [h1, h2, hta, ha0]
        · have h2 : a ≤ t - window := by omega
          simp [hta, h2, ha0]
      have hn : (cleanOldEntries entries t window).length =
          countWindow accepted window t := by
        rw [hclean, ← List.countP_eq_length_filter, countWindow]
        apply countP_congr_mem
        intro a ha
        have hat : a ≤ t := le_of_lt (lt_of_le_of_lt (hA a ha).2 htprev)
        by_cases hta : t - window < a
        · simp [hta, hat]
        · simp [hta]
      rw [List.foldl_cons]
      by_cases hcase : limit ≤ (cleanOldEntries entries t window).length
      · -- the request is denied: state keeps the cleaned set, log unchanged
        have hstep : rlStep limit window (entries, accepted) t =
            (cleanOldEntries entries t window, accepted) := by
          simp only [rlStep, checkRateLimit, hcase, if_true]
          simp
        rw [hstep]
        refine ih _ _ t ?_ hclean hC hlt hrestPair
          (fun r hr => hF r (List.mem_cons_of_mem t hr)) T
        intro a ha
        exact ⟨(hA a ha).1, le_of_lt (lt_of_le_of_lt (hA a ha).2 htprev)⟩
      · -- the request is admitted and its second is recorded
        push_neg at hcase
        have hmem : ¬ t ∈ cleanOldEntries entries t window := by
          rw [hclean]
          intro hmem
          have := List.of_mem_filter hmem
          have hat : t ≤ tprev := (hA t (List.mem_of_mem_filter hmem)).2
          omega
        have hcontains : (cleanOldEntries entries t window).contains t = false := by
          simpa using hmem
        have hstep : rlStep limit window (entries, accepted) t =
            (cleanOldEntries entries t window ++ [t], accepted ++ [t]) := by
          simp only [rlStep, checkRateLimit, not_le.mpr hcase, if_false,
            hcontains, Bool.false_eq_true]
          simp
        rw [hstep]
        refine ih _ _ t ?_ ?_ ?_ hlt hrestPair
          (fun r hr => hF r (List.mem_cons_of_mem t hr)) T
        · intro a ha
          rcases List.mem_append.mp ha with ha | ha
          · exact ⟨(hA a ha).1, le_of_lt (lt_of_le_of_lt (hA a ha).2 htprev)⟩
          · rcases List.mem_singleton.mp ha with rfl
            exact ⟨hF a (List.mem_cons_self a rest), le_refl a⟩
        · rw [List.filter_append, hclean]
          have : ([t].filter (fun a => decide (t - window < a))) = [t] := by
            have h1 : t - window < t := by omega
            simp [h1]
          rw [this]
        · intro T2
          rw [countWindow, List.countP_append]
          have hone : List.countP
              (fun x => decide (T2 - window < x) && decide (x ≤ T2)) [t]
              ≤ 1 := by
            simp [List.countP_cons]
            split <;> omega
          by_cases hin : T2 - window < t ∧ t ≤ T2
          · have hmono2 : countWindow accepted window T2 ≤
                countWindow accepted window t := by
              apply List.countP_mono_left
              intro a ha hp
              simp only [Bool.and_eq_true, decide_eq_true_eq] at hp ⊢
              have hat : a ≤ tprev := (hA a ha).2
              constructor
              · omega
              · omega
            have := hC t
            have hnlt := hcase
            rw [hn] at hnlt
            have hlt2 : countWindow accepted window T2 < limit :=
              lt_of_le_of_lt hmono2 hnlt
            rw [countWindow] at hlt2
            omega
          · have hzero : List.countP
                (fun x => decide (T2 - window < x) && decide (x ≤ T2)) [t] = 0 := by
              simp only [List.countP_cons, List.countP_nil,
                Bool.and_eq_true, decide_eq_true_eq]
              rw [if_neg]
              exact hin
            rw [hzero]
            simpa [countWindow] using hC T2

/-- C6 amended: the limiter follows the specified mechanism — after
cleaning, a request is denied exactly when the remaining entry count
reaches L, with retry-after `window − (now − oldest)` (clamped at 0), and
an admitted request is recorded with `remaining = L − n − 1` — and it
admits at most L requests in any rolling window of `window` seconds
provided the requests of the key arrive in distinct (strictly increasing)
whole seconds; same-second arrivals share one sorted-set member and can
exceed the bound (see the counterexample). -/
theorem rate_limiter_sliding_window (reqs : List Int) (limit : Nat)
    (window T : Int) (hw : 0 < window) (hmono : reqs.Pairwise (· < ·))
    (hpos : ∀ t ∈ reqs, 0 ≤ t) :
    countWindow (runRateLimiter reqs limit window).2 window T ≤ limit
    ∧ (∀ entries now,
        ((checkRateLimit entries now limit window).allowed = false ↔
          limit ≤ (cleanOldEntries entries now window).length))
    ∧ (∀ entries now, (cleanOldEntries entries now window).length < limit →
        (checkRateLimit entries now limit window).remaining =
          (limit : Int) - (cleanOldEntries entries now window).length - 1)
    ∧ (∀ entries now oldest,
        limit ≤ (cleanOldEntries entries now window).length →
        (cleanOldEntries entries now window).min? = some oldest →
        (checkRateLimit entries now limit window).retryAfter =
          max 0 (window - (now - oldest))) := by
  refine ⟨?_, ?_, ?_, ?_⟩
  · unfold runRateLimiter
    refine rl_run_invariant limit window hw reqs [] [] (-1)
      (fun a ha => absurd ha (List.not_mem_nil a)) rfl
      (fun T2 => by simp [countWindow]) ?_ hmono hpos T
    intro t ht
    have := hpos t ht
    omega
  · intro entries now
    by_cases h : limit ≤ (cleanOldEntries entries now window).length
    · simp [checkRateLimit, h]
    · simp [checkRateLimit, h]
  · intro entries now h
    simp [checkRateLimit, not_le.mpr h]
  · intro entries now oldest h hmin
    simp [checkRateLimit, h, hmin]

/-- Witness for C6 at limit 1, window 60 and the strictly increasing
request times 0 and 10: at most one request is admitted in the window
ending at 10. -/
theorem rate_limiter_sliding_window_witness :
    countWindow (runRateLimiter [0, 10] 1 60).2 60 10 ≤ 1 := by
  have h := rate_limiter_sliding_window [0, 10] 1 60 10 (by norm_num)
    (by decide) (by decide)
  exact h.1

/-! ## C7: the Pattern Analyzer absorbs all failures -/

/-- C7: the pattern-analyzer stage is total (the embedding is a function —
the stage absorbs oracle failures rather than raising) and always stores
all three `correlation_results` entries; when the LLM client is absent
each dimension holds the neutral score 0.5 with method tag `fallback`,
and when the client's call for a dimension raises, that dimension holds
0.5, `fallback`, and the raised error. -/
theorem pattern_analyzer_absorbs_failures (llm : Option LLMOracle)
    (clock : Nat → Int) (st : WFState) (tick : Nat) :
    (alistGet (analyzePatterns llm clock st tick).1.correlationResults
      "temporal").isSome = true
    ∧ (alistGet (analyzePatterns llm clock st tick).1.correlationResults
      "behavioral").isSome = true
    ∧ (alistGet (analyzePatterns llm clock st tick).1.correlationResults
      "infrastructure").isSome = true
    ∧ (llm = none →
        (analyzePatterns llm clock st tick).1.correlationResults =
          [("temporal",
             [("correlation_score", .num (1/2)), ("method", .str "fallback")]),
           ("behavioral",
             [("similarity_score", .num (1/2)), ("method", .str "fallback")]),
           ("infrastructure",
             [("clustering_score", .num (1/2)), ("method", .str "fallback")])])
    ∧ (∀ client e, llm = some client →
        client.analyzeCoordination "temporal" st.attackSessions = .error e →
        alistGet (analyzePatterns llm clock st tick).1.correlationResults
          "temporal" =
          some [("correlation_score", .num (1/2)), ("method", .str "fallback"),
                ("error", .str e)])
    ∧ (∀ client e, llm = some client →
        client.analyzeCoordination "behavioral" st.attackSessions = .error e →
        alistGet (analyzePatterns llm clock st tick).1.correlationResults
          "behavioral" =
          some [("similarity_score", .num (1/2)), ("method", .str "fallback"),
                ("error", .str e)])
    ∧ (∀ client e, llm = some client →
        client.analyzeCoordination "infrastructure" st.attackSessions = .error e →
        alistGet (analyzePatterns llm clock st tick).1.correlationResults
          "infrastructure" =
          some [("clustering_score", .num (1/2)), ("method", .str "fallback"),
                ("error", .str e)]) := by
  refine ⟨rfl, rfl, rfl, ?_, ?_, ?_, ?_⟩
  · rintro rfl
    rfl
  · rintro client e rfl herr
    simp [analyzePatterns, addStep, alistGet, temporalAnalysis, herr]
  · rintro client e rfl herr
    simp [analyzePatterns, addStep, alistGet, behavioralAnalysis, herr]
  · rintro client e rfl herr
    simp [analyzePatterns, addStep, alistGet, infrastructureAnalysis, herr]

/-- Witness for C7: the absent-client case on a concrete state. -/
theorem pattern_analyzer_absorbs_failures_witness :
    (analyzePatterns none (fun k => (k : Int))
        (initialState [] "standard" none) 0).1.correlationResults =
      [("temporal",
         [("correlation_score", .num (1/2)), ("method", .str "fallback")]),
       ("behavioral",
         [("similarity_score", .num (1/2)), ("method", .str "fallback")]),
       ("infrastructure",
         [("clustering_score", .num (1/2)), ("method", .str "fallback")])] := by
  exact (pattern_analyzer_absorbs_failures none (fun k => (k : Int))
    (initialState [] "standard" none) 0).2.2.2.1 rfl

/-! ## C4: workflow_end_time versus terminal stages -/

/-- C4 counterexample: a complete `standard`-depth run (two sessions, so
the pipeline terminates at the confidence scorer) reaches its terminal
stage with `workflow_end_time` unset and `get_processing_time` `None`,
against the claim that end time is set at every terminal exit. -/
theorem workflow_standard_run_missing_end_time :
    (runCoordinationAnalysis none (fun k => (k : Int))
        [⟨some "10.0.0.1", some (.dt 0)⟩, ⟨some "10.0.0.2", some (.dt 10)⟩]
        "standard" none).workflowEndTime = none
    ∧ (runCoordinationAnalysis none (fun k => (k : Int))
        [⟨some "10.0.0.1", some (.dt 0)⟩, ⟨some "10.0.0.2", some (.dt 10)⟩]
        "standard" none).processingSteps.map (·.1) =
        ["orchestrator_analysis", "pattern_analysis", "confidence_scoring"]
    ∧ getProcessingTime (runCoordinationAnalysis none (fun k => (k : Int))
        [⟨some "10.0.0.1", some (.dt 0)⟩, ⟨some "10.0.0.2", some (.dt 10)⟩]
        "standard" none) = none := by
  exact ⟨rfl, rfl, rfl⟩

/-- C4 amended: `workflow_end_time` is set iff the run's path includes the
Elasticsearch enricher, which happens exactly when `analysis_depth =
"deep"`; a run of any other depth terminates at the confidence scorer
with `workflow_end_time` unset and `get_processing_time` `None`, while a
deep run ends with `get_processing_time` equal to the difference of the
recorded end and start instants. -/
theorem workflow_end_time_iff_deep (llm : Option LLMOracle)
    (clock : Nat → Int) (sessions : List Session) (depth : String)
    (user : Option String) :
    ((runCoordinationAnalysis llm clock sessions depth user).workflowEndTime.isSome
        ↔ depth = "deep")
    ∧ (depth ≠ "deep" →
        getProcessingTime
          (runCoordinationAnalysis llm clock sessions depth user) = none)
    ∧ (depth = "deep" → ∃ s e,
        (runCoordinationAnalysis llm clock sessions depth user).workflowStartTime
          = some s
        ∧ (runCoordinationAnalysis llm clock sessions depth user).workflowEndTime
          = some e
        ∧ getProcessingTime
            (runCoordinationAnalysis llm clock sessions depth user)
          = some (e - s)) := by
  simp only [runCoordinationAnalysis]
  split_ifs with h1 h2 h2
  · have h2' : depth = "deep" := by
      rw [show routeAfterConfidenceScoring
        (calculateCoordinationScore llm clock
          (executeAnalysisPlan clock
            (analyzePatterns llm clock
              (analyzeInitialData clock (initialState sessions depth user) 0).1
              (analyzeInitialData clock (initialState sessions depth user) 0).2).1
            (analyzePatterns llm clock
              (analyzeInitialData clock (initialState sessions depth user) 0).1
              (analyzeInitialData clock (initialState sessions depth user) 0).2).2).1
          (executeAnalysisPlan clock
            (analyzePatterns llm clock
              (analyzeInitialData clock (initialState sessions depth user) 0).1
              (analyzeInitialData clock (initialState sessions depth user) 0).2).1
            (analyzePatterns llm clock
              (analyzeInitialData clock (initialState sessions depth user) 0).1
              (analyzeInitialData clock (initialState sessions depth user) 0).2).2).2).1 =
        (if depth = "deep" then "elasticsearch_enricher" else "end") from rfl]
        at h2
      by_cases hd : depth = "deep"
      · exact hd
      · rw [if_neg hd] at h2
        exact absurd h2 (by decide)
    refine ⟨⟨fun _ => h2', fun _ => rfl⟩, fun hne => absurd h2' hne, fun _ => ?_⟩
    exact ⟨clock 1, clock 7, rfl, rfl, rfl⟩
  · have h2' : depth ≠ "deep" := by
      intro hd
      apply h2
      rw [show routeAfterConfidenceScoring
        (calculateCoordinationScore llm clock
          (executeAnalysisPlan clock
            (analyzePatterns llm clock
              (analyzeInitialData clock (initialState sessions depth user) 0).1
              (analyzeInitialData clock (initialState sessions depth user) 0).2).1
            (analyzePatterns llm clock
              (analyzeInitialData clock (initialState sessions depth user) 0).1
              (analyzeInitialData clock (initialState sessions depth user) 0).2).2).1
          (executeAnalysisPlan clock
            (analyzePatterns llm clock
              (analyzeInitialData clock (initialState sessions depth user) 0).1
              (analyzeInitialData clock (initialState sessions depth user) 0).2).1
            (analyzePatterns llm clock
              (analyzeInitialData clock (initialState sessions depth user) 0).1
              (analyzeInitialData clock (initialState sessions depth user) 0).2).2).2).1 =
        (if depth = "deep" then "elasticsearch_enricher" else "end") from rfl]
      rw [if_pos hd]
    refine ⟨⟨fun habs => (Bool.false_ne_true habs).elim, fun hd => absurd hd h2'⟩,
      fun _ => rfl, fun hd => absurd hd h2'⟩
  · have h2' : depth = "deep" := by
      rw [show routeAfterConfidenceScoring
        (calculateCoordinationScore llm clock
          (analyzePatterns llm clock
            (analyzeInitialData clock (initialState sessions depth user) 0).1
            (analyzeInitialData clock (initialState sessions depth user) 0).2).1
          (analyzePatterns llm clock
            (analyzeInitialData clock (initialState sessions depth user) 0).1
            (analyzeInitialData clock (initialState sessions depth user) 0).2).2).1 =
        (if depth = "deep" then "elasticsearch_enricher" else "end") from rfl]
        at h2
      by_cases hd : depth = "deep"
      · exact hd
      · rw [if_neg hd] at h2
        exact absurd h2 (by decide)
    refine ⟨⟨fun _ => h2', fun _ => rfl⟩, fun hne => absurd h2' hne, fun _ => ?_⟩
    exact ⟨clock 1, clock 6, rfl, rfl, rfl⟩
  · have h2' : depth ≠ "deep" := by
      intro hd
      apply h2
      rw [show routeAfterConfidenceScoring
        (calculateCoordinationScore llm clock
          (analyzePatterns llm clock
            (analyzeInitialData clock (initialState sessions depth user) 0).1
            (analyzeInitialData clock (initialState sessions depth user) 0).2).1
          (analyzePatterns llm clock
            (analyzeInitialData clock (initialState sessions depth user) 0).1
            (analyzeInitialData clock (initialState sessions depth user) 0).2).2).1 =
        (if depth = "deep" then "elasticsearch_enricher" else "end") from rfl]
      rw [if_pos hd]
    refine ⟨⟨fun habs => (Bool.false_ne_true habs).elim, fun hd => absurd hd h2'⟩,
      fun _ => rfl, fun hd => absurd hd h2'⟩

/-- Witness for C4 at a concrete deep run: the end time is set and the
processing time is the end-start difference. -/
theorem workflow_end_time_iff_deep_witness :
    (runCoordinationAnalysis none (fun k => (k : Int)) [] "deep"
      none).workflowEndTime.isSome = true := by
  have h := workflow_end_time_iff_deep none (fun k => (k : Int)) [] "deep" none
  exact h.1.mpr rfl

/-- Witness for C5 at a concrete collected-tools value: two addresses in
one ASN and one country, both with threat score 0.3. -/
theorem tool_synthesis_follows_spec_witness :
    synthesizeResults
        ⟨some [("10.0.0.1", some "AS12345"), ("10.0.0.2", some "AS12345")],
         some [("10.0.0.1", some (3/10)), ("10.0.0.2", some (3/10))],
         some [("10.0.0.1", some "US"), ("10.0.0.2", some "US")],
         none⟩ =
      specSynthesis
        ⟨some [("10.0.0.1", some "AS12345"), ("10.0.0.2", some "AS12345")],
         some [("10.0.0.1", some (3/10)), ("10.0.0.2", some (3/10))],
         some [("10.0.0.1", some "US"), ("10.0.0.2", some "US")],
         none⟩ := by
  have h := tool_synthesis_follows_spec
    ⟨some [("10.0.0.1", some "AS12345"), ("10.0.0.2", some "AS12345")],
     some [("10.0.0.1", some (3/10)), ("10.0.0.2", some (3/10))],
     some [("10.0.0.1", some "US"), ("10.0.0.2", some "US")],
     none⟩
    (by rintro rs ⟨⟩; decide)
  exact h.1

/-! ## C8: retrieval for an unknown analysis id -/

/-- C8: `get_analysis_results` returns the fixed mock `completed` response
for every analysis id — in particular for any id never returned by a
Submit call it answers 200/`completed` with confidence 0.75 instead of the
404 `not_found` required by the spec and by the route's own declared
responses. -/
theorem get_unknown_id_not_404 (analysisId currentUser : String) :
    (getAnalysisResults analysisId currentUser).status = "completed"
    ∧ (getAnalysisResults analysisId currentUser).coordinationConfidence =
        some (75/100)
    ∧ (getAnalysisResults analysisId currentUser).analysisId = analysisId := by
  exact ⟨rfl, rfl, rfl⟩

/-! ## C10: bulk analysis result structure -/

theorem runBulkFrom_get (β α : Type) (runOne : β → Except String α)
    (batches : List β) (n i : Nat) :
    (runBulkFrom runOne n batches).get? i =
      (batches.get? i).map (fun b =>
        match runOne b with
        | .ok r => BulkEntry.ok (n + i) r
        | .error e => BulkEntry.failed (n + i) e) := by
  induction batches generalizing n i with
  | nil => simp [runBulkFrom]
  | cons batch rest ih =>
      cases i with
      | zero => simp [runBulkFrom]
      | succ j =>
          simp only [runBulkFrom, List.get?]
          rw [ih (n + 1) j]
          have : n + 1 + j = n + (j + 1) := by omega
          rw [this]

/-- C10: bulk analysis processes the batches sequentially in input order
(the embedding is a left-to-right recursion over the batch list) and
returns exactly one entry per batch; entry `i` is a function of batch `i`
alone — its `batch_index` is `i`, and a raising batch yields a `failed`
entry carrying the error message without affecting any other entry. -/
theorem bulk_analysis_per_batch (β α : Type) (runOne : β → Except String α)
    (batches : List β) :
    (runBulkCoordinationAnalysis runOne batches).length = batches.length
    ∧ ∀ i, (runBulkCoordinationAnalysis runOne batches).get? i =
        (batches.get? i).map (fun b =>
          match runOne b with
          | .ok r => BulkEntry.ok i r
          | .error e => BulkEntry.failed i e) := by
  constructor
  · unfold runBulkCoordinationAnalysis
    have hlen : ∀ (l : List β) (n : Nat), (runBulkFrom runOne n l).length = l.length := by
      intro l
      induction l with
      | nil => intro n; rfl
      | cons batch rest ih =>
          intro n
          simp only [runBulkFrom, List.length_cons, ih]
    exact hlen batches 0
  · intro i
    have h := runBulkFrom_get β α runOne batches 0 i
    simpa using h

end DShield
